import Mathlib

/-!
Verification of the `sqldb` migration runner of the `toolbox` repository.

The embedding models the second (current) version of the migrations file:
`RunMigrations`, `RunMigrationsFromEmbed`, `runMigrationsCommon`,
`applyMigration`, `checkIfMigrationPreviouslyApplied`, `saveMigrationInfo`,
together with the stdlib collaborators they call (`crypto/md5`,
`filepath.Glob`, `filepath.Base`, `sort.Strings`, `embed.FS`).

The SQL database is modelled as an explicit state: whether the bookkeeping
table `migrations` exists, its rows, the list of executed migration
statement batches (the target-storage state, in execution order), and a
logical clock supplying `time.Now()` timestamps.  Success or failure of
`db.Exec` is supplied by an environment oracle, keyed on the statement
text, so that error paths of the runner can be exercised.
-/

deriving instance DecidableEq for Except

namespace Toolbox

/-! ### MD5 (crypto/md5), RFC 1321

`runMigrationsCommon` computes `fmt.Sprintf("%x", md5.Sum(contents))`.
We embed MD5 itself, on byte lists, with all 32-bit words as `Nat`
truncated modulo `2 ^ 32`. -/

/-- Truncate to a 32-bit word. -/
def trunc32 (n : Nat) : Nat := n % 4294967296

/-- Rotate a 32-bit word left by `s` bits. -/
def rotl32 (x s : Nat) : Nat := ((x <<< s) ||| (x >>> (32 - s))) % 4294967296

/-- Bitwise complement of a 32-bit word. -/
def not32 (x : Nat) : Nat := x ^^^ 4294967295

/-- Round function F (rounds 0-15). -/
def md5F (b c d : Nat) : Nat := (b &&& c) ||| (not32 b &&& d)

/-- Round function G (rounds 16-31). -/
def md5G (b c d : Nat) : Nat := (d &&& b) ||| (not32 d &&& c)

/-- Round function H (rounds 32-47). -/
def md5H (b c d : Nat) : Nat := b ^^^ c ^^^ d

/-- Round function I (rounds 48-63). -/
def md5I (b c d : Nat) : Nat := c ^^^ (b ||| not32 d)

/-- The 64 sine-derived constants of RFC 1321. -/
def md5K : List Nat :=
  [0xd76aa478, 0xe8c7b756, 0x242070db, 0xc1bdceee,
   0xf57c0faf, 0x4787c62a, 0xa8304613, 0xfd469501,
   0x698098d8, 0x8b44f7af, 0xffff5bb1, 0x895cd7be,
   0x6b901122, 0xfd987193, 0xa679438e, 0x49b40821,
   0xf61e2562, 0xc040b340, 0x265e5a51, 0xe9b6c7aa,
   0xd62f105d, 0x02441453, 0xd8a1e681, 0xe7d3fbc8,
   0x21e1cde6, 0xc33707d6, 0xf4d50d87, 0x455a14ed,
   0xa9e3e905, 0xfcefa3f8, 0x676f02d9, 0x8d2a4c8a,
   0xfffa3942, 0x8771f681, 0x6d9d6122, 0xfde5380c,
   0xa4beea44, 0x4bdecfa9, 0xf6bb4b60, 0xbebfbc70,
   0x289b7ec6, 0xeaa127fa, 0xd4ef3085, 0x04881d05,
   0xd9d4d039, 0xe6db99e5, 0x1fa27cf8, 0xc4ac5665,
   0xf4292244, 0x432aff97, 0xab9423a7, 0xfc93a039,
   0x655b59c3, 0x8f0ccc92, 0xffeff47d, 0x85845dd1,
   0x6fa87e4f, 0xfe2ce6e0, 0xa3014314, 0x4e0811a1,
   0xf7537e82, 0xbd3af235, 0x2ad7d2bb, 0xeb86d391]

/-- The per-round left-rotation amounts of RFC 1321. -/
def md5S : List Nat :=
  [7, 12, 17, 22, 7, 12, 17, 22, 7, 12, 17, 22, 7, 12, 17, 22,
   5, 9, 14, 20, 5, 9, 14, 20, 5, 9, 14, 20, 5, 9, 14, 20,
   4, 11, 16, 23, 4, 11, 16, 23, 4, 11, 16, 23, 4, 11, 16, 23,
   6, 10, 15, 21, 6, 10, 15, 21, 6, 10, 15, 21, 6, 10, 15, 21]

/-- Decode up to four bytes as a little-endian 32-bit word. -/
def leWord (bytes : List Nat) : Nat :=
  bytes.getD 0 0 + 256 * bytes.getD 1 0 + 65536 * bytes.getD 2 0 +
    16777216 * bytes.getD 3 0

/-- Split a 64-byte chunk into sixteen little-endian words. -/
def chunkWords (chunk : List Nat) : List Nat :=
  (List.range 16).map fun i => leWord ((chunk.drop (4 * i)).take 4)

/-- One MD5 round, acting on the state `(a, b, c, d)`. -/
def md5Round (M : List Nat) (st : Nat × Nat × Nat × Nat) (i : Nat) :
    Nat × Nat × Nat × Nat :=
  let (a, b, c, d) := st
  let f :=
    if i < 16 then md5F b c d
    else if i < 32 then md5G b c d
    else if i < 48 then md5H b c d
    else md5I b c d
  let g :=
    if i < 16 then i
    else if i < 32 then (5 * i + 1) % 16
    else if i < 48 then (3 * i + 5) % 16
    else (7 * i) % 16
  let tmp := trunc32 (f + a + md5K.getD i 0 + M.getD g 0)
  (d, trunc32 (b + rotl32 tmp (md5S.getD i 0)), b, c)

/-- Process one 64-byte chunk: 64 rounds, then add into the running state. -/
def md5ProcessChunk (st : Nat × Nat × Nat × Nat) (chunk : List Nat) :
    Nat × Nat × Nat × Nat :=
  let M := chunkWords chunk
  let r := (List.range 64).foldl (md5Round M) st
  (trunc32 (st.1 + r.1), trunc32 (st.2.1 + r.2.1), trunc32 (st.2.2.1 + r.2.2.1),
   trunc32 (st.2.2.2 + r.2.2.2))

/-- Process a padded message 64 bytes at a time.  The first argument is
fuel (any bound on the number of chunks); structural recursion on it keeps
the definition kernel-computable. -/
def md5Chunks : Nat → (Nat × Nat × Nat × Nat) → List Nat → Nat × Nat × Nat × Nat
  | 0, st, _ => st
  | _ + 1, st, [] => st
  | fuel + 1, st, l => md5Chunks fuel (md5ProcessChunk st (l.take 64)) (l.drop 64)

/-- RFC 1321 padding: a 0x80 byte, zeros to 56 mod 64, then the bit length
as a little-endian 64-bit number. -/
def md5Pad (msg : List Nat) : List Nat :=
  let lenBits := (msg.length * 8) % 18446744073709551616
  let withOne := msg ++ [128]
  let zeros := (120 - withOne.length % 64) % 64
  withOne ++ List.replicate zeros 0 ++
    ((List.range 8).map fun i => lenBits / 256 ^ i % 256)

/-- Little-endian bytes of a 32-bit word. -/
def leBytes32 (w : Nat) : List Nat :=
  (List.range 4).map fun i => w / 256 ^ i % 256

/-- The 16-byte MD5 digest of a byte sequence (Go `md5.Sum`). -/
def md5Sum (msg : List Nat) : List Nat :=
  let padded := md5Pad msg
  let r := md5Chunks padded.length
    (1732584193, 4023233417, 2562383102, 271733878) padded
  leBytes32 r.1 ++ leBytes32 r.2.1 ++ leBytes32 r.2.2.1 ++ leBytes32 r.2.2.2

/-- Lowercase hexadecimal digit. -/
def hexDigit (n : Nat) : Char := ("0123456789abcdef").data.getD n '0'

/-- Two lowercase hex characters for one byte. -/
def hexByte (b : Nat) : List Char := [hexDigit (b / 16), hexDigit (b % 16)]

/-- Lowercase hex encoding of a byte sequence (Go `fmt.Sprintf` with the
x verb). -/
def hexEncode (bytes : List Nat) : String :=
  String.mk (bytes.foldr (fun b acc => hexByte b ++ acc) [])

/-- The content hash computed by the runner:
`fmt.Sprintf("%x", md5.Sum(contents))`. -/
def md5hex (msg : List Nat) : String := hexEncode (md5Sum msg)

/-- UTF-8 bytes of one character. -/
def utf8Bytes (c : Char) : List Nat :=
  let n := c.toNat
  if n < 128 then [n]
  else if n < 2048 then [192 + n / 64, 128 + n % 64]
  else if n < 65536 then [224 + n / 4096, 128 + n / 64 % 64, 128 + n % 64]
  else [240 + n / 262144, 128 + n / 4096 % 64, 128 + n / 64 % 64, 128 + n % 64]

/-- The byte sequence of a string (Go strings and file contents are byte
sequences; Lean strings are embedded through their UTF-8 encoding). -/
def strBytes (s : String) : List Nat :=
  s.data.foldr (fun c acc => utf8Bytes c ++ acc) []

/-! ### Data model

The bookkeeping table `migrations` and the observable state of the target
database. -/

/-- One row of the bookkeeping table `migrations`
(`file TEXT, md5 TEXT, applied_at TIMESTAMPTZ`). -/
structure MigrationRecord where
  file : String
  md5 : String
  appliedAt : Nat
deriving DecidableEq

/-- Observable state of the target database: whether the bookkeeping table
exists, its rows in insertion order, the migration statement batches
executed so far (the target-storage state, in execution order, each tagged
with the file it came from), and a logical clock supplying timestamps. -/
structure DbState where
  tableExists : Bool
  records : List MigrationRecord
  applied : List (String × List Nat)
  clock : Nat
deriving DecidableEq

/-- The distinguishable error values the runner can return.  In Go these
are the error values of `filepath.Glob`, `os.ReadFile` or
`embed.FS.ReadFile`, the bookkeeping query, `db.Exec` of a migration
batch, and the bookkeeping insert, each propagated as-is. -/
inductive MigErr where
  | globErr
  | readErr (path : String)
  | queryErr
  | execErr (stmt : List Nat)
  | insertErr (file : String) (hash : String)
deriving DecidableEq

/-- Final state plus the error returned (`none` is Go's `nil`). -/
structure RunResult where
  state : DbState
  err : Option MigErr
deriving DecidableEq

/-- Environment oracle deciding success of the statement executor:
`execOk` for `db.Exec` of a statement batch, `insertOk` for the
parameterised bookkeeping insert of a given (file, hash) pair. -/
structure Env where
  execOk : List Nat → Bool
  insertOk : String → String → Bool

/-! ### The runner (`sqldb` package, migrations file) -/

/-- The constant `migrationsInitialScript`, byte for byte as in the
source. -/
def migrationsInitialScript : String :=
  "\nCREATE TABLE IF NOT EXISTS migrations (\n    file TEXT NOT NULL,\n    md5 TEXT NOT NULL,\n    applied_at TIMESTAMPTZ NOT NULL,\n    PRIMARY KEY (md5)\n);\n"

/-- Split a character list into the groups separated by characters
satisfying `p` (kernel-computable replacement for `String.split`). -/
def splitWhen (p : Char → Bool) : List Char → List (List Char)
  | [] => [[]]
  | c :: rest =>
    if p c then [] :: splitWhen p rest
    else
      match splitWhen p rest with
      | [] => [[c]]
      | g :: gs => (c :: g) :: gs

/-- Does the list start with the given first argument? -/
def leadsWith : List Char → List Char → Bool
  | [], _ => true
  | _ :: _, [] => false
  | x :: xs, y :: ys => decide (x = y) && leadsWith xs ys

/-- Does the list end with the given first argument? -/
def charsEndsWith (suf l : List Char) : Bool :=
  leadsWith suf.reverse l.reverse

/-- The characters of the extension `.sql`. -/
def sqlExt : List Char := ['.', 's', 'q', 'l']

/-- Go `filepath.Base`: the last element of a path.  (The root and empty
edge cases of Go, irrelevant to the paths the runner builds, are
approximated.) -/
def baseName (p : String) : String :=
  match ((splitWhen (fun c => c = '/') p.data).filter
      (fun g => !g.isEmpty)).getLast? with
  | some b => String.mk b
  | none => "."

/-- `checkIfMigrationPreviouslyApplied`: `QueryRow` of
`SELECT file FROM migrations WHERE md5 = $1` followed by `Scan`.
`sql.ErrNoRows` is mapped to `(false, nil)`; a row found gives
`(true, nil)`; querying a missing table is a query error. -/
def checkIfMigrationPreviouslyApplied (st : DbState) (nowMd5 : String) :
    Except MigErr Bool :=
  if st.tableExists then .ok (st.records.any fun r => r.md5 == nowMd5)
  else .error .queryErr

/-- `applyMigration`: one `db.Exec` of the whole statement batch.  On
success the batch is appended to the execution log; on failure the state
is unchanged and the error is returned.  (The Go function receives only
the statement text; the model additionally tags the executed batch with
the file it came from, which has no effect on control flow.) -/
def applyMigration (env : Env) (st : DbState) (origin : String)
    (migration : List Nat) : Except MigErr DbState :=
  if env.execOk migration then
    .ok { st with applied := st.applied ++ [(origin, migration)] }
  else .error (.execErr migration)

/-- `saveMigrationInfo`: `INSERT INTO migrations (file, md5, applied_at)
VALUES ($1, $2, $3)` with `time.Now()`.  The insert fails if the oracle
says so, if the table is missing, or on a `PRIMARY KEY (md5)` conflict. -/
def saveMigrationInfo (env : Env) (st : DbState) (file : String)
    (nowMd5 : String) : Except MigErr DbState :=
  if env.insertOk file nowMd5 && st.tableExists &&
      st.records.all (fun r => !(r.md5 == nowMd5)) then
    .ok { st with records := st.records ++ [⟨file, nowMd5, st.clock⟩],
                  clock := st.clock + 1 }
  else .error (.insertErr file nowMd5)

/-- Executing `migrationsInitialScript` against the database.
`CREATE TABLE IF NOT EXISTS` succeeds without effect when the table
already exists; otherwise it creates the table when the executor
succeeds and fails without effect when it does not. -/
def execCreateTable (env : Env) (st : DbState) : Except MigErr DbState :=
  if st.tableExists then .ok st
  else if env.execOk (strBytes migrationsInitialScript) then
    .ok { st with tableExists := true }
  else .error (.execErr (strBytes migrationsInitialScript))

/-- The call `db.applyMigration(migrationsInitialScript)` at the top of
`runMigrationsCommon`.  The Go code discards the returned error, so the
model keeps whatever state resulted and drops the error value. -/
def initTable (env : Env) (st : DbState) : DbState :=
  match execCreateTable env st with
  | .ok st' => st'
  | .error _ => st

/-- A file-reading collaborator (`os.ReadFile` or `embed.FS.ReadFile`):
bytes on success, an opaque error otherwise. -/
def ReadFn : Type := String → Except Unit (List Nat)

/-- Outcome of one iteration of the loop body of `runMigrationsCommon`:
continue with a new state, or return from the function with an error. -/
inductive StepRes where
  | next (st : DbState)
  | halt (st : DbState) (e : MigErr)

/-- One iteration of the loop of `runMigrationsCommon` on `file`: read the
file, hash its contents, skip if previously applied, otherwise execute
the batch and record it. -/
def migStep (env : Env) (readFileFunc : ReadFn) (file : String)
    (st : DbState) : StepRes :=
  match readFileFunc file with
  | .error _ => .halt st (.readErr file)
  | .ok contents =>
    let nowMd5 := md5hex contents
    match checkIfMigrationPreviouslyApplied st nowMd5 with
    | .error e => .halt st e
    | .ok true => .next st
    | .ok false =>
      match applyMigration env st file contents with
      | .error e => .halt st e
      | .ok st1 =>
        match saveMigrationInfo env st1 (baseName file) nowMd5 with
        | .error e => .halt st1 e
        | .ok st2 => .next st2

/-- The `for _, file := range files` loop of `runMigrationsCommon`. -/
def migLoop (env : Env) (readFileFunc : ReadFn) :
    List String → DbState → RunResult
  | [], st => ⟨st, none⟩
  | file :: rest, st =>
    match migStep env readFileFunc file st with
    | .next st' => migLoop env readFileFunc rest st'
    | .halt st' e => ⟨st', some e⟩

/-- `runMigrationsCommon`: execute the table-creation script (error
discarded), then process the files in the given order. -/
def runMigrationsCommon (env : Env) (readFileFunc : ReadFn)
    (files : List String) (st : DbState) : RunResult :=
  migLoop env readFileFunc files (initTable env st)

/-! ### Directory enumeration (`filepath.Glob`) and `RunMigrations` -/

/-- Whether a glob pattern is malformed, i.e. `filepath.Match` would
return `ErrBadPattern`: an unterminated character class or a trailing
backslash.  These are the only enumeration errors `filepath.Glob` can
return; it explicitly ignores file system errors such as a directory
that cannot be opened. -/
def badPatternAux : List Char → Bool → Bool
  | [], inClass => inClass
  | '\\' :: [], _ => true
  | '\\' :: _ :: rest, inClass => badPatternAux rest inClass
  | '[' :: rest, false => badPatternAux rest true
  | ']' :: rest, true => badPatternAux rest false
  | _ :: rest, inClass => badPatternAux rest inClass

/-- Whether `filepath.Match` rejects the pattern with `ErrBadPattern`. -/
def badPattern (p : String) : Bool := badPatternAux p.data false

/-- `filepath.Join(migrationsPath, "*.sql")` (path cleaning beyond the
empty-directory case is not modelled; the separator is `/`). -/
def joinPattern (dir : String) : String :=
  if dir.data.isEmpty then "*.sql" else dir ++ ("/*.sql")

/-- Whether path `p` is matched by the pattern `dir ++ "/*.sql"`: a file
directly inside `dir` whose base name ends in `.sql` (`*` matches any
possibly-empty run of non-separator characters). -/
def globMatchSql (dir p : String) : Bool :=
  let d := dir.data ++ ['/']
  leadsWith d p.data &&
    (let base := p.data.drop d.length
     base.all (fun c => decide (c ≠ '/')) && charsEndsWith sqlExt base)

/-- The file system seen by `RunMigrations`: full paths with contents. -/
def FileSys : Type := List (String × List Nat)

/-- `filepath.Glob(filepath.Join(migrationsPath, "*.sql"))`: an error only
for a malformed pattern, otherwise the matching paths.  A directory that
does not exist simply yields no matches and no error. -/
def globSql (fsys : FileSys) (dir : String) : Except MigErr (List String) :=
  if badPattern (joinPattern dir) then .error .globErr
  else .ok ((fsys.map Prod.fst).filter (globMatchSql dir))

/-- `os.ReadFile` over the modelled file system. -/
def fsReadFile (fsys : FileSys) : ReadFn := fun p =>
  match fsys.find? (fun q => q.1 == p) with
  | some q => .ok q.2
  | none => .error ()

/-- Lexicographic (non-strict) comparison of character lists.  Go
compares strings byte-wise; for UTF-8 encoded strings byte-wise order
coincides with code-point order, which this computes. -/
def charsLe : List Char → List Char → Bool
  | [], _ => true
  | _ :: _, [] => false
  | x :: xs, y :: ys => if x = y then charsLe xs ys else decide (x < y)

/-- Lexicographic strict comparison of character lists. -/
def charsLt : List Char → List Char → Bool
  | [], [] => false
  | [], _ :: _ => true
  | _ :: _, [] => false
  | x :: xs, y :: ys => if x = y then charsLt xs ys else decide (x < y)

/-- Go string `<=` (ascending lexicographic byte-wise order). -/
def strLe (a b : String) : Bool := charsLe a.data b.data

/-- Go string `<`. -/
def strLt (a b : String) : Bool := charsLt a.data b.data

/-- `strLe` as a relation, for the sorting lemmas. -/
def strLeRel (a b : String) : Prop := strLe a b = true

instance : DecidableRel strLeRel := fun a b =>
  inferInstanceAs (Decidable (strLe a b = true))

/-- Go `sort.Strings`: ascending lexicographic (byte-wise) order.  Any
correct sort for this total, antisymmetric order produces the same list;
insertion sort is used because it is kernel-computable. -/
def sortStrings (l : List String) : List String :=
  List.insertionSort strLeRel l

/-- `RunMigrations`: glob the directory, sort, and run the common core
with `os.ReadFile`. -/
def RunMigrations (env : Env) (fsys : FileSys) (migrationsPath : String)
    (st : DbState) : RunResult :=
  match globSql fsys migrationsPath with
  | .error e => ⟨st, some e⟩
  | .ok files => runMigrationsCommon env (fsReadFile fsys) (sortStrings files) st

/-! ### Embedded enumeration (`embed.FS`) and `RunMigrationsFromEmbed` -/

/-- An entry of the embedded tree: a file with contents, or a directory
with entries. -/
inductive FsEntry where
  | file (name : String) (content : List Nat)
  | dir (name : String) (entries : List FsEntry)

/-- The name of an entry. -/
def entryName : FsEntry → String
  | .file n _ => n
  | .dir n _ => n

/-- Go `fs.DirEntry.IsDir`. -/
def FsEntry.isDir : FsEntry → Bool
  | .dir _ _ => true
  | .file _ _ => false

/-- The name order on entries, for `embed.FS` directory listings. -/
def entryLeRel (a b : FsEntry) : Prop := strLe (entryName a) (entryName b) = true

instance : DecidableRel entryLeRel := fun a b =>
  inferInstanceAs (Decidable (strLe (entryName a) (entryName b) = true))

/-- `embed.FS.ReadDir` returns entries sorted by name. -/
def sortEntries (l : List FsEntry) : List FsEntry :=
  List.insertionSort entryLeRel l

/-- The enumeration loop of `RunMigrationsFromEmbed`: walk the root
entries in listing order; at the first directory, collect
`filepath.Join(dir, name)` for its non-directory entries whose extension
is `.sql`, then `break`. -/
def collectFirstDir : List FsEntry → List String
  | [] => []
  | .file _ _ :: rest => collectFirstDir rest
  | .dir d entries :: _ =>
    (sortEntries entries).filterMap fun e =>
      match e with
      | .file n _ =>
        if charsEndsWith sqlExt n.data then some (d ++ ("/") ++ n) else none
      | .dir _ _ => none

/-- The `sqlFiles` list collected from the embedded root listing. -/
def embedSqlFiles (root : List FsEntry) : List String :=
  collectFirstDir (sortEntries root)

/-- `embed.FS.ReadFile` for the two-component paths the enumeration
produces. -/
def embedReadFile (root : List FsEntry) : ReadFn := fun p =>
  match splitWhen (fun c => c = '/') p.data with
  | [d, n] =>
    match root.find? (fun e => entryName e == String.mk d) with
    | some (.dir _ entries) =>
      match entries.find? (fun e => entryName e == String.mk n) with
      | some (.file _ c) => .ok c
      | _ => .error ()
    | _ => .error ()
  | _ => .error ()

/-- `RunMigrationsFromEmbed`: enumerate the embedded tree, sort, and run
the common core with `embedFS.ReadFile`. -/
def RunMigrationsFromEmbed (env : Env) (root : List FsEntry) (st : DbState) :
    RunResult :=
  runMigrationsCommon env (embedReadFile root)
    (sortStrings (embedSqlFiles root)) st

/-! ### Derived definitions used in the claim statements -/

/-- The bookkeeping invariant: at most one record per content hash. -/
def uniqueMd5 (l : List MigrationRecord) : Prop :=
  l.Pairwise fun r s => r.md5 ≠ s.md5

/-- The `.sql` files inside one directory entry (none for a plain file):
`filepath.Join(dir, name)` for each non-directory entry of the listing
whose extension is `.sql`. -/
def dirSqlFiles : FsEntry → List String
  | .dir d entries =>
    (sortEntries entries).filterMap fun e =>
      match e with
      | .file n _ =>
        if charsEndsWith sqlExt n.data then some (d ++ ("/") ++ n) else none
      | .dir _ _ => none
  | .file _ _ => []

/-- Written after the claim's words, to be compared with the enumeration
of the source: the collected files are the `.sql` files of the first
entry of the (sorted) embedded root listing that is a directory, and
nothing else. -/
def specFirstDirSql (root : List FsEntry) : List String :=
  match (sortEntries root).find? FsEntry.isDir with
  | some e => dirSqlFiles e
  | none => []

/-- SQL token delimiters of the creation script. -/
def isSqlDelim (c : Char) : Bool :=
  c == ' ' || c == '\n' || c == '(' || c == ')' || c == ',' || c == ';'

/-- The word tokens of `migrationsInitialScript`, in order. -/
def scriptTokens : List String :=
  ((splitWhen isSqlDelim migrationsInitialScript.data).filter
    fun g => !g.isEmpty).map String.mk

/-- The token following the first occurrence of `key`. -/
def tokenAfter (key : String) : List String → Option String
  | [] => none
  | t :: rest => if t == key then rest.head? else tokenAfter key rest

/-! ### Concrete inputs used by the witnesses -/

/-- An executor that always succeeds. -/
def envAllOk : Env := ⟨fun _ => true, fun _ _ => true⟩

/-- An executor whose statement execution always fails. -/
def envInitFails : Env := ⟨fun _ => false, fun _ _ => true⟩

/-- An executor that fails exactly on the batch with text `BAD`. -/
def envExecBadFails : Env := ⟨fun s => !(s == strBytes ("BAD")), fun _ _ => true⟩

/-- A reader with no files. -/
def readNone : ReadFn := fun _ => .error ()

/-- A reader with three fixed migration files. -/
def readABC : ReadFn := fun p =>
  if p == ("m/0.sql") then .ok (strBytes ("A"))
  else if p == ("m/1.sql") then .ok (strBytes ("BAD"))
  else if p == ("m/2.sql") then .ok (strBytes ("C"))
  else .error ()

/-- A fresh database: no bookkeeping table, nothing applied. -/
def st0 : DbState := ⟨false, [], [], 0⟩

/-- A database where the bookkeeping table already exists and is empty. -/
def stT : DbState := ⟨true, [], [], 0⟩

/-- The state after applying and recording the migration `m/0.sql`. -/
def stPre : DbState :=
  ⟨true, [⟨("0.sql"), md5hex (strBytes ("A")), 0⟩],
    [(("m/0.sql"), strBytes ("A"))], 1⟩

/-- A file system with one migration file in directory `m`. -/
def fs1 : FileSys := [(("m/0.sql"), strBytes ("A"))]

/-- A file system with two migration files, enumerated in reverse name
order. -/
def fs2 : FileSys :=
  [(("m/1.sql"), strBytes ("B")), (("m/0.sql"), strBytes ("A"))]

/-- An embedded root listing with no directory entry (a root-level .sql
file and a plain file only). -/
def rootNoDir : List FsEntry := [.file ("root.sql") [], .file ("b.txt") []]

/-- A reader with two differently named files of identical content. -/
def readDup : ReadFn := fun p =>
  if p == ("m/0.sql") || p == ("m/1.sql") then .ok (strBytes ("A"))
  else .error ()

/-! ### Basic facts about the lexicographic comparison -/

theorem charsLe_refl (xs : List Char) : charsLe xs xs = true := by
  induction xs with
  | nil => rfl
  | cons x xs ih => simp [charsLe, ih]

theorem charsLe_total (xs ys : List Char) :
    charsLe xs ys = true ∨ charsLe ys xs = true := by
  induction xs generalizing ys with
  | nil => left; rfl
  | cons x xs ih =>
    cases ys with
    | nil => right; rfl
    | cons y ys =>
      by_cases hxy : x = y
      · subst hxy
        rcases ih ys with h | h
        · left; simpa [charsLe] using h
        · right; simpa [charsLe] using h
      · rcases lt_or_gt_of_ne hxy with h | h
        · left; simp [charsLe, hxy, h]
        · right; simp [charsLe, Ne.symm hxy, h]

theorem charsLe_trans {xs ys zs : List Char} (h1 : charsLe xs ys = true)
    (h2 : charsLe ys zs = true) : charsLe xs zs = true := by
  induction xs generalizing ys zs with
  | nil => rfl
  | cons x xs ih =>
    cases ys with
    | nil => simp [charsLe] at h1
    | cons y ys =>
      cases zs with
      | nil => simp [charsLe] at h2
      | cons z zs =>
        simp only [charsLe] at h1 h2 ⊢
        by_cases hxy : x = y
        · rw [if_pos hxy] at h1
          by_cases hyz : y = z
          · rw [if_pos hyz] at h2
            rw [if_pos (hxy.trans hyz)]
            exact ih h1 h2
          · rw [if_neg hyz, decide_eq_true_eq] at h2
            have hxz : x < z := hxy.symm ▸ h2
            rw [if_neg (fun e : x = z => lt_irrefl z (e ▸ hxz)), decide_eq_true_eq]
            exact hxz
        · rw [if_neg hxy, decide_eq_true_eq] at h1
          by_cases hyz : y = z
          · have hxz : x < z := hyz ▸ h1
            rw [if_neg (fun e : x = z => lt_irrefl z (e ▸ hxz)), decide_eq_true_eq]
            exact hxz
          · rw [if_neg hyz, decide_eq_true_eq] at h2
            have hxz : x < z := lt_trans h1 h2
            rw [if_neg (fun e : x = z => lt_irrefl z (e ▸ hxz)), decide_eq_true_eq]
            exact hxz

theorem charsLt_not_le {xs ys : List Char} (h1 : charsLt xs ys = true)
    (h2 : charsLe ys xs = true) : False := by
  induction xs generalizing ys with
  | nil =>
    cases ys with
    | nil => simp [charsLt] at h1
    | cons y ys => simp [charsLe] at h2
  | cons x xs ih =>
    cases ys with
    | nil => simp [charsLt] at h1
    | cons y ys =>
      by_cases hxy : x = y
      · subst hxy
        simp only [charsLt, if_pos rfl] at h1
        simp only [charsLe, if_pos rfl] at h2
        exact ih h1 h2
      · simp only [charsLt, if_neg hxy, decide_eq_true_eq] at h1
        simp only [charsLe, if_neg (Ne.symm hxy), decide_eq_true_eq] at h2
        exact absurd (lt_trans h1 h2) (lt_irrefl x)

theorem charsLt_irrefl (xs : List Char) : charsLt xs xs = false := by
  cases h : charsLt xs xs with
  | false => rfl
  | true => exact (charsLt_not_le h (charsLe_refl xs)).elim

theorem orderedInsert_sorted (a : String) {l : List String}
    (h : l.Pairwise strLeRel) :
    (l.orderedInsert strLeRel a).Pairwise strLeRel := by
  induction l with
  | nil => simp [List.orderedInsert]
  | cons b t ih =>
    rw [List.orderedInsert]
    by_cases hab : strLeRel a b
    · rw [if_pos hab]
      refine List.Pairwise.cons ?_ h
      intro x hx
      rcases List.mem_cons.mp hx with rfl | hx
      · exact hab
      · exact charsLe_trans hab (List.rel_of_pairwise_cons h hx)
    · rw [if_neg hab]
      have hba : strLeRel b a :=
        (charsLe_total a.data b.data).resolve_left hab
      refine List.Pairwise.cons ?_ (ih (List.Pairwise.of_cons h))
      intro x hx
      rcases (List.mem_orderedInsert strLeRel).mp hx with rfl | hx
      · exact hba
      · exact List.rel_of_pairwise_cons h hx

theorem sortStrings_sorted (l : List String) :
    (sortStrings l).Pairwise strLeRel := by
  induction l with
  | nil => simp [sortStrings, List.insertionSort]
  | cons x t ih =>
    rw [sortStrings, List.insertionSort]
    exact orderedInsert_sorted x ih

/-! ### Structural lemmas about the runner -/

theorem records_all_not_of_any_false {l : List MigrationRecord} {h : String}
    (ha : (l.any fun r => r.md5 == h) = false) :
    (l.all fun r => !(r.md5 == h)) = true := by
  simp only [List.any_eq_false] at ha
  simp only [List.all_eq_true, Bool.not_eq_true']
  intro r hr
  simpa using ha r hr

theorem migStep_eq_read_err {env : Env} {read : ReadFn} {f : String}
    {st : DbState} {e : Unit} (h : read f = .error e) :
    migStep env read f st = .halt st (.readErr f) := by
  simp [migStep, h]

theorem migStep_eq_no_table {env : Env} {read : ReadFn} {f : String}
    {st : DbState} {c : List Nat} (h : read f = .ok c)
    (ht : st.tableExists = false) :
    migStep env read f st = .halt st .queryErr := by
  simp [migStep, h, checkIfMigrationPreviouslyApplied, ht]

theorem migStep_eq_skip {env : Env} {read : ReadFn} {f : String}
    {st : DbState} {c : List Nat} (h : read f = .ok c)
    (ht : st.tableExists = true)
    (hany : (st.records.any fun r => r.md5 == md5hex c) = true) :
    migStep env read f st = .next st := by
  simp [migStep, h, checkIfMigrationPreviouslyApplied, ht, hany]

theorem migStep_eq_exec_fail {env : Env} {read : ReadFn} {f : String}
    {st : DbState} {c : List Nat} (h : read f = .ok c)
    (ht : st.tableExists = true)
    (hany : (st.records.any fun r => r.md5 == md5hex c) = false)
    (hex : env.execOk c = false) :
    migStep env read f st = .halt st (.execErr c) := by
  simp [migStep, h, checkIfMigrationPreviouslyApplied, ht, hany,
    applyMigration, hex]

theorem migStep_eq_insert_fail {env : Env} {read : ReadFn} {f : String}
    {st : DbState} {c : List Nat} (h : read f = .ok c)
    (ht : st.tableExists = true)
    (hany : (st.records.any fun r => r.md5 == md5hex c) = false)
    (hex : env.execOk c = true)
    (hins : env.insertOk (baseName f) (md5hex c) = false) :
    migStep env read f st =
      .halt { st with applied := st.applied ++ [(f, c)] }
        (.insertErr (baseName f) (md5hex c)) := by
  simp [migStep, h, checkIfMigrationPreviouslyApplied, ht, hany,
    applyMigration, hex, saveMigrationInfo, hins]

theorem migStep_eq_apply {env : Env} {read : ReadFn} {f : String}
    {st : DbState} {c : List Nat} (h : read f = .ok c)
    (ht : st.tableExists = true)
    (hany : (st.records.any fun r => r.md5 == md5hex c) = false)
    (hex : env.execOk c = true)
    (hins : env.insertOk (baseName f) (md5hex c) = true) :
    migStep env read f st =
      .next { st with
        applied := st.applied ++ [(f, c)],
        records := st.records ++ [⟨baseName f, md5hex c, st.clock⟩],
        clock := st.clock + 1 } := by
  have hall := records_all_not_of_any_false hany
  simp [migStep, h, checkIfMigrationPreviouslyApplied, ht, hany,
    applyMigration, hex, saveMigrationInfo, hins, hall]

/-- Complete case analysis of one loop iteration. -/
theorem migStep_cases (env : Env) (read : ReadFn) (f : String) (st : DbState) :
    (∃ e, read f = .error e ∧ migStep env read f st = .halt st (.readErr f)) ∨
    (∃ c, read f = .ok c ∧ st.tableExists = false ∧
      migStep env read f st = .halt st .queryErr) ∨
    (∃ c, read f = .ok c ∧ st.tableExists = true ∧
      (st.records.any fun r => r.md5 == md5hex c) = true ∧
      migStep env read f st = .next st) ∨
    (∃ c, read f = .ok c ∧ st.tableExists = true ∧
      (st.records.any fun r => r.md5 == md5hex c) = false ∧
      env.execOk c = false ∧
      migStep env read f st = .halt st (.execErr c)) ∨
    (∃ c, read f = .ok c ∧ st.tableExists = true ∧
      (st.records.any fun r => r.md5 == md5hex c) = false ∧
      env.execOk c = true ∧ env.insertOk (baseName f) (md5hex c) = false ∧
      migStep env read f st =
        .halt { st with applied := st.applied ++ [(f, c)] }
          (.insertErr (baseName f) (md5hex c))) ∨
    (∃ c, read f = .ok c ∧ st.tableExists = true ∧
      (st.records.any fun r => r.md5 == md5hex c) = false ∧
      env.execOk c = true ∧ env.insertOk (baseName f) (md5hex c) = true ∧
      migStep env read f st =
        .next { st with
          applied := st.applied ++ [(f, c)],
          records := st.records ++ [⟨baseName f, md5hex c, st.clock⟩],
          clock := st.clock + 1 }) := by
  cases hr : read f with
  | error e =>
    exact Or.inl ⟨e, rfl, migStep_eq_read_err hr⟩
  | ok c =>
    cases ht : st.tableExists with
    | false =>
      exact Or.inr (Or.inl ⟨c, rfl, rfl, migStep_eq_no_table hr ht⟩)
    | true =>
      cases hany : st.records.any fun r => r.md5 == md5hex c with
      | true =>
        exact Or.inr (Or.inr (Or.inl
          ⟨c, rfl, rfl, hany, migStep_eq_skip hr ht hany⟩))
      | false =>
        cases hex : env.execOk c with
        | false =>
          exact Or.inr (Or.inr (Or.inr (Or.inl
            ⟨c, rfl, rfl, hany, hex, migStep_eq_exec_fail hr ht hany hex⟩)))
        | true =>
          cases hins : env.insertOk (baseName f) (md5hex c) with
          | false =>
            exact Or.inr (Or.inr (Or.inr (Or.inr (Or.inl
              ⟨c, rfl, rfl, hany, hex, hins,
                ht ▸ migStep_eq_insert_fail hr ht hany hex hins⟩))))
          | true =>
            exact Or.inr (Or.inr (Or.inr (Or.inr (Or.inr
              ⟨c, rfl, rfl, hany, hex, hins,
                ht ▸ migStep_eq_apply hr ht hany hex hins⟩))))

theorem any_md5_true_iff (l : List MigrationRecord) (h : String) :
    (l.any fun r => r.md5 == h) = true ↔ h ∈ l.map fun r => r.md5 := by
  simp [List.any_eq_true, beq_iff_eq]

/-- The loop processes a concatenation by processing the first part and,
if no error occurred, continuing with the second from the reached state. -/
theorem migLoop_append (env : Env) (read : ReadFn) (xs ys : List String)
    (st : DbState) :
    migLoop env read (xs ++ ys) st =
      match migLoop env read xs st with
      | ⟨st1, none⟩ => migLoop env read ys st1
      | ⟨st1, some e⟩ => ⟨st1, some e⟩ := by
  induction xs generalizing st with
  | nil => simp [migLoop]
  | cons f rest ih =>
    simp only [List.cons_append, migLoop]
    cases migStep env read f st with
    | next st' => exact ih st'
    | halt st' e => rfl

/-- Structure of a loop run: the table flag is untouched, the execution
log and the record list only grow at the end, every new log entry is a
successfully read file of the input (in input order), and every new
record comes from a read file, carrying its base name and content hash. -/
theorem migLoop_growth (env : Env) (read : ReadFn) (files : List String)
    (st : DbState) :
    (migLoop env read files st).state.tableExists = st.tableExists ∧
    ∃ napp nrec,
      (migLoop env read files st).state.applied = st.applied ++ napp ∧
      (migLoop env read files st).state.records = st.records ++ nrec ∧
      List.Sublist (napp.map Prod.fst) files ∧
      (∀ p ∈ napp, read p.1 = .ok p.2) ∧
      (∀ rec ∈ nrec, ∃ f c, f ∈ files ∧ read f = .ok c ∧
        rec.file = baseName f ∧ rec.md5 = md5hex c) := by
  induction files generalizing st with
  | nil =>
    exact ⟨rfl, [], [], by simp [migLoop], by simp [migLoop],
      by simp, by simp, by simp⟩
  | cons f rest ih =>
    rcases migStep_cases env read f st with
      ⟨e, hr, hs⟩ | ⟨c, hr, ht, hs⟩ | ⟨c, hr, ht, hany, hs⟩ |
      ⟨c, hr, ht, hany, hex, hs⟩ | ⟨c, hr, ht, hany, hex, hins, hs⟩ |
      ⟨c, hr, ht, hany, hex, hins, hs⟩
    · refine ⟨by simp [migLoop, hs], [], [], by simp [migLoop, hs],
        by simp [migLoop, hs], by simp, by simp, by simp⟩
    · refine ⟨by simp [migLoop, hs], [], [], by simp [migLoop, hs],
        by simp [migLoop, hs], by simp, by simp, by simp⟩
    · obtain ⟨iht, napp, nrec, happ, hrec, hsub, hread, hrecs⟩ := ih st
      refine ⟨by simpa [migLoop, hs] using iht, napp, nrec,
        by simpa [migLoop, hs] using happ,
        by simpa [migLoop, hs] using hrec, hsub.cons f, hread, ?_⟩
      intro rec hmem
      obtain ⟨g, cg, hg, hrg, h1, h2⟩ := hrecs rec hmem
      exact ⟨g, cg, List.mem_cons_of_mem f hg, hrg, h1, h2⟩
    · refine ⟨by simp [migLoop, hs], [], [], by simp [migLoop, hs],
        by simp [migLoop, hs], by simp, by simp, by simp⟩
    · refine ⟨by simp [migLoop, hs], [(f, c)], [], by simp [migLoop, hs],
        by simp [migLoop, hs], ?_, ?_, by simp⟩
      · simp
      · intro p hp
        rcases List.mem_singleton.mp hp with rfl
        exact hr
    · obtain ⟨iht, napp, nrec, happ, hrec, hsub, hread, hrecs⟩ :=
        ih { st with
          applied := st.applied ++ [(f, c)],
          records := st.records ++ [⟨baseName f, md5hex c, st.clock⟩],
          clock := st.clock + 1 }
      refine ⟨by simpa [migLoop, hs] using iht,
        (f, c) :: napp, ⟨baseName f, md5hex c, st.clock⟩ :: nrec, ?_, ?_, ?_, ?_, ?_⟩
      · have := happ
        simp only [migLoop, hs] at this ⊢
        rw [this]; simp
      · have := hrec
        simp only [migLoop, hs] at this ⊢
        rw [this]; simp
      · simpa using List.Sublist.cons₂ f hsub
      · intro p hp
        rcases List.mem_cons.mp hp with rfl | hp
        · exact hr
        · exact hread p hp
      · intro rec hmem
        rcases List.mem_cons.mp hmem with rfl | hmem
        · exact ⟨f, c, List.mem_cons_self f rest, hr, rfl, rfl⟩
        · obtain ⟨g, cg, hg, hrg, h1, h2⟩ := hrecs rec hmem
          exact ⟨g, cg, List.mem_cons_of_mem f hg, hrg, h1, h2⟩

/-- The loop never changes the table-existence flag. -/
theorem migLoop_tableExists (env : Env) (read : ReadFn) (files : List String)
    (st : DbState) :
    (migLoop env read files st).state.tableExists = st.tableExists :=
  (migLoop_growth env read files st).1

/-- The loop preserves uniqueness of content hashes in the bookkeeping
table: a record is only ever inserted after the lookup found no row with
its hash. -/
theorem migLoop_uniqueMd5 (env : Env) (read : ReadFn) (files : List String)
    (st : DbState) (hu : uniqueMd5 st.records) :
    uniqueMd5 (migLoop env read files st).state.records := by
  induction files generalizing st with
  | nil => simpa [migLoop]
  | cons f rest ih =>
    rcases migStep_cases env read f st with
      ⟨e, hr, hs⟩ | ⟨c, hr, ht, hs⟩ | ⟨c, hr, ht, hany, hs⟩ |
      ⟨c, hr, ht, hany, hex, hs⟩ | ⟨c, hr, ht, hany, hex, hins, hs⟩ |
      ⟨c, hr, ht, hany, hex, hins, hs⟩
    · simpa [migLoop, hs] using hu
    · simpa [migLoop, hs] using hu
    · simp only [migLoop, hs]
      exact ih st hu
    · simpa [migLoop, hs] using hu
    · simpa [migLoop, hs] using hu
    · simp only [migLoop, hs]
      apply ih
      simp only [uniqueMd5, List.pairwise_append]
      refine ⟨hu, by simp, ?_⟩
      intro a ha b hb
      rcases List.mem_singleton.mp hb with rfl
      simp only [List.any_eq_false] at hany
      simpa using hany a ha

/-- After a successful loop run, every input file was readable and its
content hash is present in the final bookkeeping table. -/
theorem migLoop_ok_processed {env : Env} {read : ReadFn}
    {files : List String} {st st' : DbState}
    (hok : migLoop env read files st = ⟨st', none⟩) :
    ∀ f ∈ files, ∃ c, read f = .ok c ∧
      md5hex c ∈ st'.records.map fun r => r.md5 := by
  induction files generalizing st with
  | nil => simp
  | cons f rest ih =>
    intro g hg
    rcases migStep_cases env read f st with
      ⟨e, hr, hs⟩ | ⟨c, hr, ht, hs⟩ | ⟨c, hr, ht, hany, hs⟩ |
      ⟨c, hr, ht, hany, hex, hs⟩ | ⟨c, hr, ht, hany, hex, hins, hs⟩ |
      ⟨c, hr, ht, hany, hex, hins, hs⟩
    · simp [migLoop, hs] at hok
    · simp [migLoop, hs] at hok
    · simp only [migLoop, hs] at hok
      rcases List.mem_cons.mp hg with rfl | hg
      · refine ⟨c, hr, ?_⟩
        obtain ⟨-, napp, nrec, -, hrec, -, -, -⟩ := migLoop_growth env read rest st
        rw [hok] at hrec
        rw [hrec, List.map_append]
        exact List.mem_append_left _ ((any_md5_true_iff _ _).mp hany)
      · exact ih hok g hg
    · simp [migLoop, hs] at hok
    · simp [migLoop, hs] at hok
    · simp only [migLoop, hs] at hok
      rcases List.mem_cons.mp hg with rfl | hg
      · refine ⟨c, hr, ?_⟩
        obtain ⟨-, napp, nrec, -, hrec, -, -, -⟩ := migLoop_growth env read rest
          { st with
            applied := st.applied ++ [(g, c)],
            records := st.records ++ [⟨baseName g, md5hex c, st.clock⟩],
            clock := st.clock + 1 }
        rw [hok] at hrec
        rw [hrec]
        simp
      · exact ih hok g hg

/-- If the table exists and every file's hash is already recorded, the
loop is a pure no-op: every file is skipped and nothing changes. -/
theorem migLoop_all_known {env : Env} {read : ReadFn} {files : List String}
    {st : DbState} (ht : st.tableExists = true)
    (hall : ∀ f ∈ files, ∃ c, read f = .ok c ∧
      md5hex c ∈ st.records.map fun r => r.md5) :
    migLoop env read files st = ⟨st, none⟩ := by
  induction files with
  | nil => rfl
  | cons f rest ih =>
    obtain ⟨c, hr, hmem⟩ := hall f (List.mem_cons_self f rest)
    have hany : (st.records.any fun r => r.md5 == md5hex c) = true :=
      (any_md5_true_iff _ _).mpr hmem
    rw [migLoop, migStep_eq_skip hr ht hany]
    exact ih fun g hg => hall g (List.mem_cons_of_mem f hg)

theorem md5_blocked {l : List MigrationRecord} {hc h : String}
    (hany : (l.any fun r => r.md5 == hc) = false)
    (hmem : h ∈ l.map fun r => r.md5) : hc ≠ h := by
  intro he
  subst he
  have htrue := (any_md5_true_iff l hc).mpr hmem
  rw [htrue] at hany
  simp at hany

/-- Once a hash is present in the bookkeeping table, the loop never
executes another batch with that content hash: every entry of the final
execution log is either an old entry or has a different hash. -/
theorem migLoop_no_new_hash (env : Env) (read : ReadFn) (files : List String)
    (st : DbState) (h : String)
    (hmem : h ∈ st.records.map fun r => r.md5) :
    ∀ p ∈ (migLoop env read files st).state.applied,
      p ∈ st.applied ∨ md5hex p.2 ≠ h := by
  induction files generalizing st with
  | nil =>
    intro p hp
    simp only [migLoop] at hp
    exact Or.inl hp
  | cons f rest ih =>
    intro p hp
    rcases migStep_cases env read f st with
      ⟨e, hr, hs⟩ | ⟨c, hr, ht, hs⟩ | ⟨c, hr, ht, hany, hs⟩ |
      ⟨c, hr, ht, hany, hex, hs⟩ | ⟨c, hr, ht, hany, hex, hins, hs⟩ |
      ⟨c, hr, ht, hany, hex, hins, hs⟩
    · simp only [migLoop, hs] at hp; exact Or.inl hp
    · simp only [migLoop, hs] at hp; exact Or.inl hp
    · simp only [migLoop, hs] at hp; exact ih st hmem p hp
    · simp only [migLoop, hs] at hp; exact Or.inl hp
    · simp only [migLoop, hs] at hp
      rcases List.mem_append.mp hp with hp1 | hp1
      · exact Or.inl hp1
      · rcases List.mem_singleton.mp hp1 with rfl
        exact Or.inr (md5_blocked hany hmem)
    · simp only [migLoop, hs] at hp
      have hmem2 : h ∈ (st.records ++
          [MigrationRecord.mk (baseName f) (md5hex c) st.clock]).map
          (fun r => r.md5) := by
        rw [List.map_append]
        exact List.mem_append_left _ hmem
      rcases ih _ hmem2 p hp with hp1 | hp1
      · rcases List.mem_append.mp hp1 with hp2 | hp2
        · exact Or.inl hp2
        · rcases List.mem_singleton.mp hp2 with rfl
          exact Or.inr (md5_blocked hany hmem)
      · exact Or.inr hp1

/-- Once a hash is present in the bookkeeping table, the loop never adds
or removes records with that hash: its multiplicity is unchanged. -/
theorem migLoop_countP_blocked (env : Env) (read : ReadFn)
    (files : List String) (st : DbState) (h : String)
    (hmem : h ∈ st.records.map fun r => r.md5) :
    ((migLoop env read files st).state.records.countP
      fun r => r.md5 == h) = st.records.countP fun r => r.md5 == h := by
  induction files generalizing st with
  | nil => simp [migLoop]
  | cons f rest ih =>
    rcases migStep_cases env read f st with
      ⟨e, hr, hs⟩ | ⟨c, hr, ht, hs⟩ | ⟨c, hr, ht, hany, hs⟩ |
      ⟨c, hr, ht, hany, hex, hs⟩ | ⟨c, hr, ht, hany, hex, hins, hs⟩ |
      ⟨c, hr, ht, hany, hex, hins, hs⟩
    · simp [migLoop, hs]
    · simp [migLoop, hs]
    · simp only [migLoop, hs]; exact ih st hmem
    · simp [migLoop, hs]
    · simp [migLoop, hs]
    · simp only [migLoop, hs]
      have hneq : md5hex c ≠ h := md5_blocked hany hmem
      have hmem2 : h ∈ (st.records ++
          [MigrationRecord.mk (baseName f) (md5hex c) st.clock]).map
          (fun r => r.md5) := by
        rw [List.map_append]
        exact List.mem_append_left _ hmem
      rw [ih _ hmem2]
      show ((st.records ++
          [MigrationRecord.mk (baseName f) (md5hex c) st.clock]).countP
        fun r => r.md5 == h) = st.records.countP fun r => r.md5 == h
      rw [List.countP_append]
      simp [List.countP_cons, hneq]

/-- Explicit if-then-else form of `initTable`. -/
theorem initTable_eq (env : Env) (st : DbState) :
    initTable env st =
      if st.tableExists then st
      else if env.execOk (strBytes migrationsInitialScript) then
        { st with tableExists := true }
      else st := by
  unfold initTable execCreateTable
  by_cases h : st.tableExists
  · simp [h]
  · by_cases h2 : env.execOk (strBytes migrationsInitialScript) <;> simp [h, h2]

theorem initTable_records (env : Env) (st : DbState) :
    (initTable env st).records = st.records := by
  rw [initTable_eq]; split_ifs <;> rfl

theorem initTable_applied (env : Env) (st : DbState) :
    (initTable env st).applied = st.applied := by
  rw [initTable_eq]; split_ifs <;> rfl

theorem initTable_clock (env : Env) (st : DbState) :
    (initTable env st).clock = st.clock := by
  rw [initTable_eq]; split_ifs <;> rfl

theorem initTable_of_tableExists {env : Env} {st : DbState}
    (h : st.tableExists = true) : initTable env st = st := by
  rw [initTable_eq, if_pos h]

theorem initTable_idem (env : Env) (st : DbState) :
    initTable env (initTable env st) = initTable env st := by
  rw [initTable_eq env st]
  split_ifs with h1 h2
  · rw [initTable_eq]; simp [h1]
  · rw [initTable_eq]; simp
  · rw [initTable_eq]; simp [h1, h2]

theorem initTable_tableExists_of_exec {env : Env} {st : DbState}
    (h : env.execOk (strBytes migrationsInitialScript) = true) :
    (initTable env st).tableExists = true := by
  rw [initTable_eq]
  split_ifs with h1
  · exact h1
  · rfl

theorem any_md5_false_iff (l : List MigrationRecord) (h : String) :
    (l.any fun r => r.md5 == h) = false ↔ ∀ r ∈ l, r.md5 ≠ h := by
  simp [List.any_eq_false, beq_iff_eq]

/-! ### Claim theorems -/

/-- Claim C9: for an empty migration source, the run creates the
bookkeeping table if it is absent (the creation statement succeeding),
executes no migration statements, inserts no bookkeeping records, and
returns success. -/
theorem runMigrationsCommon_empty_source (env : Env) (read : ReadFn)
    (st : DbState)
    (hexec : env.execOk (strBytes migrationsInitialScript) = true) :
    runMigrationsCommon env read [] st = ⟨initTable env st, none⟩ ∧
    (initTable env st).applied = st.applied ∧
    (initTable env st).records = st.records ∧
    (initTable env st).tableExists = true :=
  ⟨rfl, initTable_applied env st, initTable_records env st,
    initTable_tableExists_of_exec hexec⟩

set_option maxRecDepth 1000000 in
theorem runMigrationsCommon_empty_source_witness :
    envAllOk.execOk (strBytes migrationsInitialScript) = true ∧
    (runMigrationsCommon envAllOk readNone [] st0 =
        ⟨initTable envAllOk st0, none⟩ ∧
      (initTable envAllOk st0).applied = st0.applied ∧
      (initTable envAllOk st0).records = st0.records ∧
      (initTable envAllOk st0).tableExists = true) :=
  ⟨by decide, runMigrationsCommon_empty_source envAllOk readNone st0 (by decide)⟩

set_option maxRecDepth 1000000 in
/-- Claim C5 (code bug): the Go code discards the error of
`db.applyMigration(migrationsInitialScript)`.  When the table-creation
statement fails on a fresh database, the run with an empty source still
returns success (`nil`), and a run with one migration fails with the
bookkeeping-query error, not the creation error — the creation failure is
never surfaced, contradicting the spec's propagation policy. -/
theorem createTable_failure_swallowed :
    execCreateTable envInitFails st0 =
      .error (.execErr (strBytes migrationsInitialScript)) ∧
    runMigrationsCommon envInitFails readNone [] st0 = ⟨st0, none⟩ ∧
    runMigrationsCommon envInitFails readABC [("m/0.sql")] st0 =
      ⟨st0, some .queryErr⟩ := by
  refine ⟨by decide, by decide, by decide⟩

set_option maxRecDepth 1000000 in
/-- Claim C6 counterexample: `RunMigrations` on a directory that does not
exist (the file system holds only files elsewhere) raises no error at
all — `filepath.Glob` yields an empty match list and a `nil` error, and
the run succeeds having applied nothing.  The claim's
"a distinguishable error is raised" is false for this input. -/
theorem runMigrations_missing_dir_no_error :
    RunMigrations envAllOk [(("elsewhere/0.sql"), strBytes ("A"))]
        ("nonexistent") st0 =
      ⟨⟨true, [], [], 0⟩, none⟩ := by
  decide

/-- Claim C6 amended: source enumeration itself can fail only when the
glob pattern is malformed (Go `ErrBadPattern`); that error is propagated
immediately with the state unchanged, so no migrations are applied.  A
directory that merely does not exist is not an enumeration failure:
`filepath.Glob` ignores file-system errors and returns an empty list. -/
theorem runMigrations_bad_pattern (env : Env) (fsys : FileSys) (dir : String)
    (st : DbState) (hbad : badPattern (joinPattern dir) = true) :
    RunMigrations env fsys dir st = ⟨st, some .globErr⟩ := by
  simp [RunMigrations, globSql, hbad]

theorem runMigrations_bad_pattern_witness :
    badPattern (joinPattern ("a[")) = true ∧
    RunMigrations envAllOk [] ("a[") st0 = ⟨st0, some .globErr⟩ :=
  ⟨by decide, runMigrations_bad_pattern envAllOk [] ("a[") st0 (by decide)⟩

/-- Claim C8 counterexample: in the creation script, the token following
`applied_at` — the column's type — is `TIMESTAMPTZ`, not the `TIMESTAMP`
the claim states. -/
theorem migrations_schema_col_type :
    tokenAfter ("applied_at") scriptTokens = some ("TIMESTAMPTZ") ∧
    ("TIMESTAMPTZ" : String) ≠ ("TIMESTAMP") := by
  exact ⟨by decide, by decide⟩

/-- Claim C8 amended: the bookkeeping table is created by a
`CREATE TABLE IF NOT EXISTS` statement with schema
`migrations(file TEXT NOT NULL, md5 TEXT NOT NULL, applied_at TIMESTAMPTZ
NOT NULL, PRIMARY KEY (md5))`, and executing it when the table already
exists never fails. -/
theorem migrations_schema_script (env : Env) (st : DbState)
    (h : st.tableExists = true) :
    scriptTokens =
      [("CREATE"), ("TABLE"), ("IF"), ("NOT"), ("EXISTS"), ("migrations"),
       ("file"), ("TEXT"), ("NOT"), ("NULL"),
       ("md5"), ("TEXT"), ("NOT"), ("NULL"),
       ("applied_at"), ("TIMESTAMPTZ"), ("NOT"), ("NULL"),
       ("PRIMARY"), ("KEY"), ("md5")] ∧
    execCreateTable env st = .ok st :=
  ⟨by decide, by simp [execCreateTable, h]⟩

theorem migrations_schema_script_witness :
    stT.tableExists = true ∧
    (scriptTokens =
      [("CREATE"), ("TABLE"), ("IF"), ("NOT"), ("EXISTS"), ("migrations"),
       ("file"), ("TEXT"), ("NOT"), ("NULL"),
       ("md5"), ("TEXT"), ("NOT"), ("NULL"),
       ("applied_at"), ("TIMESTAMPTZ"), ("NOT"), ("NULL"),
       ("PRIMARY"), ("KEY"), ("md5")] ∧
    execCreateTable envAllOk stT = .ok stT) :=
  ⟨by decide, migrations_schema_script envAllOk stT (by decide)⟩

/-- Claim C4: if the statement batch of a migration fails to execute, the
run returns that execution error immediately: the final state is exactly
the state reached after the earlier migrations (they remain applied, no
rollback), no bookkeeping record is inserted for the failing migration,
and the migrations listed after it are never attempted. -/
theorem exec_failure_aborts (env : Env) (read : ReadFn)
    (pre post : List String) (bad : String) (st st' : DbState) (c : List Nat)
    (hpre : runMigrationsCommon env read pre st = ⟨st', none⟩)
    (htable : st'.tableExists = true)
    (hread : read bad = .ok c)
    (hfresh : ∀ r ∈ st'.records, r.md5 ≠ md5hex c)
    (hfail : env.execOk c = false) :
    runMigrationsCommon env read (pre ++ bad :: post) st =
      ⟨st', some (.execErr c)⟩ := by
  have hany := (any_md5_false_iff st'.records (md5hex c)).mpr hfresh
  unfold runMigrationsCommon at hpre ⊢
  rw [migLoop_append, hpre]
  show migLoop env read (bad :: post) st' = ⟨st', some (.execErr c)⟩
  rw [migLoop, migStep_eq_exec_fail hread htable hany hfail]

set_option maxRecDepth 1000000 in
theorem exec_failure_aborts_witness :
    runMigrationsCommon envExecBadFails readABC
        ([("m/0.sql")] ++ ("m/1.sql") :: [("m/2.sql")]) st0 =
      ⟨stPre, some (.execErr (strBytes ("BAD")))⟩ :=
  exec_failure_aborts envExecBadFails readABC [("m/0.sql")] [("m/2.sql")]
    ("m/1.sql") st0 stPre (strBytes ("BAD")) (by decide) (by decide)
    (by decide) (by decide) (by decide)

/-- Claim C7: for a migration whose content hash is not yet recorded, the
runner computes the hash as the hex-encoded MD5 digest of the raw file
bytes (`md5hex`); after the batch executes successfully it inserts
exactly one record `(base name, content hash, current timestamp)` into
the bookkeeping table and continues, and if the insert fails the insert
error is propagated and the run aborts with the migration executed but
unrecorded. -/
theorem hash_then_record (env : Env) (read : ReadFn) (f : String)
    (rest : List String) (st : DbState) (c : List Nat)
    (ht : st.tableExists = true)
    (hread : read f = .ok c)
    (hfresh : ∀ r ∈ st.records, r.md5 ≠ md5hex c)
    (hexec : env.execOk c = true) :
    (env.insertOk (baseName f) (md5hex c) = true →
      runMigrationsCommon env read (f :: rest) st =
        migLoop env read rest
          { st with
            applied := st.applied ++ [(f, c)],
            records := st.records ++ [⟨baseName f, md5hex c, st.clock⟩],
            clock := st.clock + 1 }) ∧
    (env.insertOk (baseName f) (md5hex c) = false →
      runMigrationsCommon env read (f :: rest) st =
        ⟨{ st with applied := st.applied ++ [(f, c)] },
          some (.insertErr (baseName f) (md5hex c))⟩) := by
  have hany := (any_md5_false_iff st.records (md5hex c)).mpr hfresh
  constructor
  · intro hins
    unfold runMigrationsCommon
    rw [initTable_of_tableExists ht, migLoop,
      migStep_eq_apply hread ht hany hexec hins]
  · intro hins
    unfold runMigrationsCommon
    rw [initTable_of_tableExists ht, migLoop,
      migStep_eq_insert_fail hread ht hany hexec hins]

set_option maxRecDepth 1000000 in
theorem hash_then_record_witness :
    runMigrationsCommon envAllOk readABC [("m/0.sql")] stT =
      migLoop envAllOk readABC []
        { stT with
          applied := stT.applied ++ [(("m/0.sql"), strBytes ("A"))],
          records := stT.records ++
            [⟨baseName ("m/0.sql"), md5hex (strBytes ("A")), stT.clock⟩],
          clock := stT.clock + 1 } :=
  (hash_then_record envAllOk readABC ("m/0.sql") [] stT (strBytes ("A"))
    (by decide) (by decide) (by decide) (by decide)).1 (by decide)

/-- Claim C1: idempotence of `RunMigrations`.  If a run over a fixed file
system and directory succeeds, a second run from the reached state
returns exactly the same state with success — it applies zero new
migrations (every content hash is found in the bookkeeping table and the
file is skipped) and inserts nothing — and the bookkeeping table holds at
most one record per distinct content hash after either run. -/
theorem runMigrations_idempotent (env : Env) (fsys : FileSys) (dir : String)
    (st st1 : DbState)
    (h1 : RunMigrations env fsys dir st = ⟨st1, none⟩)
    (hu : uniqueMd5 st.records) :
    RunMigrations env fsys dir st1 = ⟨st1, none⟩ ∧ uniqueMd5 st1.records := by
  unfold RunMigrations at h1 ⊢
  cases hG : globSql fsys dir with
  | error e =>
    rw [hG] at h1
    exact absurd h1 (by simp)
  | ok files =>
    rw [hG] at h1
    replace h1 : migLoop env (fsReadFile fsys) (sortStrings files)
        (initTable env st) = ⟨st1, none⟩ := h1
    have hu1 : uniqueMd5 st1.records := by
      have h := migLoop_uniqueMd5 env (fsReadFile fsys) (sortStrings files)
        (initTable env st) (by rw [initTable_records]; exact hu)
      rw [h1] at h
      exact h
    refine ⟨?_, hu1⟩
    show migLoop env (fsReadFile fsys) (sortStrings files)
      (initTable env st1) = ⟨st1, none⟩
    cases hf : sortStrings files with
    | nil =>
      rw [hf] at h1
      simp only [migLoop] at h1
      have hst1 : initTable env st = st1 := congrArg RunResult.state h1
      show (⟨initTable env st1, none⟩ : RunResult) = ⟨st1, none⟩
      rw [← hst1, initTable_idem]
    | cons f rest =>
      rw [hf] at h1
      have htinit : (initTable env st).tableExists = true := by
        rcases migStep_cases env (fsReadFile fsys) f (initTable env st) with
          ⟨e, hr, hs⟩ | ⟨cc, hr, ht, hs⟩ | ⟨cc, hr, ht, hany, hs⟩ |
          ⟨cc, hr, ht, hany, hex, hs⟩ | ⟨cc, hr, ht, hany, hex, hins, hs⟩ |
          ⟨cc, hr, ht, hany, hex, hins, hs⟩
        · simp [migLoop, hs] at h1
        · simp [migLoop, hs] at h1
        · exact ht
        · simp [migLoop, hs] at h1
        · simp [migLoop, hs] at h1
        · exact ht
      have ht1 : st1.tableExists = true := by
        have h := migLoop_tableExists env (fsReadFile fsys) (f :: rest)
          (initTable env st)
        rw [h1] at h
        exact htinit ▸ h
      have hall := migLoop_ok_processed h1
      rw [initTable_of_tableExists ht1]
      exact migLoop_all_known ht1 hall

set_option maxRecDepth 1000000 in
theorem runMigrations_idempotent_witness :
    RunMigrations envAllOk fs1 ("m") stPre = ⟨stPre, none⟩ ∧
    uniqueMd5 stPre.records :=
  runMigrations_idempotent envAllOk fs1 ("m") st0 stPre (by decide)
    List.Pairwise.nil

theorem collectFirstDir_spec (l : List FsEntry) :
    collectFirstDir l =
      match l.find? FsEntry.isDir with
      | some e => dirSqlFiles e
      | none => [] := by
  induction l with
  | nil => rfl
  | cons e t ih =>
    cases e with
    | file n c => simpa [collectFirstDir, List.find?, FsEntry.isDir] using ih
    | dir d entries => simp [collectFirstDir, List.find?, FsEntry.isDir, dirSqlFiles]

/-- Claim C10: `RunMigrationsFromEmbed` collects `.sql` files solely from
the first entry of the embedded root listing that is a directory —
root-level `.sql` files and later subdirectories are never enumerated —
and when the root contains no directory the run applies zero migrations,
inserts no records, and returns success. -/
theorem embed_first_dir_only (env : Env) (root : List FsEntry) (st : DbState) :
    embedSqlFiles root = specFirstDirSql root ∧
    ((sortEntries root).all (fun e => !e.isDir) = true →
      RunMigrationsFromEmbed env root st = ⟨initTable env st, none⟩ ∧
      (initTable env st).applied = st.applied ∧
      (initTable env st).records = st.records) := by
  constructor
  · exact collectFirstDir_spec (sortEntries root)
  · intro hall
    have hnone : (sortEntries root).find? FsEntry.isDir = none := by
      rw [List.find?_eq_none]
      intro e he
      have h := List.all_eq_true.mp hall e he
      simpa using h
    have hempty : embedSqlFiles root = [] := by
      rw [embedSqlFiles, collectFirstDir_spec (sortEntries root), hnone]
    unfold RunMigrationsFromEmbed
    rw [hempty]
    exact ⟨rfl, initTable_applied env st, initTable_records env st⟩

theorem embed_first_dir_only_witness :
    embedSqlFiles rootNoDir = specFirstDirSql rootNoDir ∧
    (RunMigrationsFromEmbed envAllOk rootNoDir st0 =
        ⟨initTable envAllOk st0, none⟩ ∧
      (initTable envAllOk st0).applied = st0.applied ∧
      (initTable envAllOk st0).records = st0.records) :=
  ⟨(embed_first_dir_only envAllOk rootNoDir st0).1,
    (embed_first_dir_only envAllOk rootNoDir st0).2 (by decide)⟩

theorem pairwise_applied_of_sublist {l : List (String × List Nat)}
    {files : List String}
    (hsub : List.Sublist (l.map Prod.fst) files)
    (hsorted : files.Pairwise strLeRel) :
    l.Pairwise fun p q => strLeRel p.1 q.1 :=
  List.pairwise_map.mp (hsorted.sublist hsub)

/-- Claim C2: within a single run, migrations are applied in ascending
lexicographic (byte-wise) order of their names, regardless of the order
in which the file system enumerates them: whenever the batch at position
`i` of the execution log has a name strictly smaller than the batch at
position `j`, it was executed earlier (`i < j`) — equivalently, all
statements of the smaller-named migration run before any statement of
the larger-named one. -/
theorem runMigrations_ordering (env : Env) (fsys : FileSys) (dir : String)
    (st : DbState) (happ : st.applied = []) :
    ∀ i j : Fin (RunMigrations env fsys dir st).state.applied.length,
      strLt ((RunMigrations env fsys dir st).state.applied.get i).1
          ((RunMigrations env fsys dir st).state.applied.get j).1 = true →
      (i : Nat) < (j : Nat) := by
  have hpair : (RunMigrations env fsys dir st).state.applied.Pairwise
      (fun p q => strLeRel p.1 q.1) := by
    unfold RunMigrations
    cases hG : globSql fsys dir with
    | error e => simp [happ]
    | ok files =>
      show (migLoop env (fsReadFile fsys) (sortStrings files)
        (initTable env st)).state.applied.Pairwise fun p q => strLeRel p.1 q.1
      obtain ⟨-, napp, nrec, happlied, -, hsub, -, -⟩ :=
        migLoop_growth env (fsReadFile fsys) (sortStrings files)
          (initTable env st)
      rw [happlied, initTable_applied, happ]
      simp only [List.nil_append]
      exact pairwise_applied_of_sublist hsub (sortStrings_sorted files)
  intro i j hlt
  rcases lt_trichotomy (i : Nat) (j : Nat) with h | h | h
  · exact h
  · exfalso
    have hij : i = j := Fin.ext h
    subst hij
    have : charsLt ((RunMigrations env fsys dir st).state.applied.get i).1.data
        ((RunMigrations env fsys dir st).state.applied.get i).1.data = true := hlt
    rw [charsLt_irrefl] at this
    exact Bool.false_ne_true this
  · exfalso
    have hle := List.pairwise_iff_get.mp hpair j i h
    exact charsLt_not_le hlt hle

set_option maxRecDepth 1000000 in
theorem runMigrations_ordering_witness :
    (RunMigrations envAllOk fs2 ("m") st0).state.applied.map Prod.fst =
      [("m/0.sql"), ("m/1.sql")] ∧ (0 : Nat) < 1 :=
  ⟨by decide,
    runMigrations_ordering envAllOk fs2 ("m") st0 (by decide)
      ⟨0, by decide⟩ ⟨1, by decide⟩ (by decide)⟩


/-- Claim C3: content-based deduplication.  In a run over
`pre ++ a :: mid ++ b :: post` where `a` and `b` are differently named
files with byte-identical content whose hash is not yet recorded and not
produced by any earlier file, the first in order (`a`) is executed and
recorded, the second (`b`) is skipped — no batch of the run is tagged
with `b`, and the bookkeeping table ends up with exactly one record for
that content hash. -/
theorem content_dedup (env : Env) (read : ReadFn)
    (pre mid post : List String) (a b : String) (st st' : DbState)
    (c : List Nat)
    (hrun : runMigrationsCommon env read (pre ++ a :: mid ++ b :: post) st =
      ⟨st', none⟩)
    (hra : read a = .ok c) (hrb : read b = .ok c) (hab : a ≠ b)
    (hfresh : ∀ r ∈ st.records, r.md5 ≠ md5hex c)
    (hpre : ∀ g ∈ pre, ∀ cg, read g = .ok cg → md5hex cg ≠ md5hex c)
    (hbapp : ∀ p ∈ st.applied, p.1 ≠ b) :
    ((a, c) ∈ st'.applied) ∧
    (∀ p ∈ st'.applied, p.1 ≠ b) ∧
    (st'.records.countP fun r => r.md5 == md5hex c) = 1 := by
  have hbpre : b ∉ pre := fun hb => (hpre b hb c hrb) rfl
  unfold runMigrationsCommon at hrun
  have hls : pre ++ a :: mid ++ b :: post =
      pre ++ ([a] ++ (mid ++ ([b] ++ post))) := by simp
  rw [hls, migLoop_append] at hrun
  cases hP : migLoop env read pre (initTable env st) with
  | mk stp ep =>
    rw [hP] at hrun
    cases ep with
    | some e => simp at hrun
    | none =>
      replace hrun : migLoop env read ([a] ++ (mid ++ ([b] ++ post))) stp =
        ⟨st', none⟩ := hrun
      obtain ⟨htp, nappP, nrecP, happP, hrecP, hsubP, hreadP, hrecsP⟩ :=
        migLoop_growth env read pre (initTable env st)
      rw [hP] at htp happP hrecP
      rw [initTable_applied] at happP
      rw [initTable_records] at hrecP
      have hfreshp : ∀ r ∈ stp.records, r.md5 ≠ md5hex c := by
        intro r hr
        rw [hrecP] at hr
        rcases List.mem_append.mp hr with hr1 | hr1
        · exact hfresh r hr1
        · obtain ⟨g, cg, hg, hrg, -, hmd⟩ := hrecsP r hr1
          rw [hmd]
          exact hpre g hg cg hrg
      rw [migLoop_append] at hrun
      rcases migStep_cases env read a stp with
        ⟨e, hr, hs⟩ | ⟨cc, hr, ht, hs⟩ | ⟨cc, hr, ht, hany, hs⟩ |
        ⟨cc, hr, ht, hany, hex, hs⟩ | ⟨cc, hr, ht, hany, hex, hins, hs⟩ |
        ⟨cc, hr, ht, hany, hex, hins, hs⟩
      · rw [hra] at hr; simp at hr
      · rw [migLoop, hs] at hrun; simp at hrun
      · rw [hra] at hr
        injection hr with hcc
        subst hcc
        rw [any_md5_true_iff] at hany
        obtain ⟨r, hrmem, hrmd⟩ := List.mem_map.mp hany
        exact absurd hrmd (hfreshp r hrmem)
      · rw [migLoop, hs] at hrun; simp at hrun
      · rw [migLoop, hs] at hrun; simp at hrun
      · rw [hra] at hr
        injection hr with hcc
        subst hcc
        rw [migLoop, hs] at hrun
        set sta : DbState :=
          { stp with
            applied := stp.applied ++ [(a, c)],
            records := stp.records ++ [⟨baseName a, md5hex c, stp.clock⟩],
            clock := stp.clock + 1 } with hsta
        replace hrun : migLoop env read (mid ++ ([b] ++ post)) sta =
          ⟨st', none⟩ := hrun
        rw [migLoop_append] at hrun
        have hmem_a : md5hex c ∈ sta.records.map fun r => r.md5 := by
          rw [hsta]
          simp
        cases hM : migLoop env read mid sta with
        | mk stm em =>
          rw [hM] at hrun
          cases em with
          | some e => simp at hrun
          | none =>
            replace hrun : migLoop env read ([b] ++ post) stm =
              ⟨st', none⟩ := hrun
            rw [migLoop_append] at hrun
            obtain ⟨htm, nappM, nrecM, happM, hrecM, hsubM, hreadM, hrecsM⟩ :=
              migLoop_growth env read mid sta
            rw [hM] at htm happM hrecM
            have hmem_m : md5hex c ∈ stm.records.map fun r => r.md5 := by
              rw [hrecM, List.map_append]
              exact List.mem_append_left _ hmem_a
            have htm' : stm.tableExists = true := by
              rw [htm]
              show stp.tableExists = true
              exact ht
            rcases migStep_cases env read b stm with
              ⟨e, hr2, hs2⟩ | ⟨cc, hr2, ht2, hs2⟩ | ⟨cc, hr2, ht2, hany2, hs2⟩ |
              ⟨cc, hr2, ht2, hany2, hex2, hs2⟩ |
              ⟨cc, hr2, ht2, hany2, hex2, hins2, hs2⟩ |
              ⟨cc, hr2, ht2, hany2, hex2, hins2, hs2⟩
            · rw [hrb] at hr2; simp at hr2
            · rw [htm'] at ht2; simp at ht2
            · rw [migLoop, hs2] at hrun
              replace hrun : migLoop env read post stm = ⟨st', none⟩ := hrun
              clear hls
              obtain ⟨-, nappQ, nrecQ, happQ, hrecQ, hsubQ, hreadQ, hrecsQ⟩ :=
                migLoop_growth env read post stm
              rw [hrun] at happQ hrecQ
              have hsta_no_b : ∀ q ∈ sta.applied, q.1 ≠ b := by
                intro q hq hqb
                have hq4 : q ∈ stp.applied ++ [(a, c)] := hq
                rcases List.mem_append.mp hq4 with hq5 | hq5
                · rw [happP] at hq5
                  rcases List.mem_append.mp hq5 with hq6 | hq6
                  · exact hbapp q hq6 hqb
                  · have h7 : q.1 ∈ pre :=
                      hsubP.subset (List.mem_map_of_mem Prod.fst hq6)
                    rw [hqb] at h7
                    exact hbpre h7
                · rcases List.mem_singleton.mp hq5 with rfl
                  exact hab hqb
              have hstm_no_b : ∀ q ∈ stm.applied, q.1 ≠ b := by
                intro q hq hqb
                have hm := migLoop_no_new_hash env read mid sta (md5hex c)
                  hmem_a q (by rw [hM]; exact hq)
                rcases hm with h1 | h1
                · exact hsta_no_b q h1 hqb
                · have hq2 : q ∈ sta.applied ++ nappM := by
                    rw [← happM]; exact hq
                  rcases List.mem_append.mp hq2 with h2 | h2
                  · exact hsta_no_b q h2 hqb
                  · have h3 := hreadM q h2
                    rw [hqb, hrb] at h3
                    injection h3 with h4
                    rw [← h4] at h1
                    exact h1 rfl
              refine ⟨?_, ?_, ?_⟩
              · rw [happQ, happM]
                apply List.mem_append_left
                apply List.mem_append_left
                show (a, c) ∈ stp.applied ++ [(a, c)]
                exact List.mem_append_right _ (List.mem_singleton_self _)
              · intro p hp hpb
                have hq := migLoop_no_new_hash env read post stm (md5hex c)
                  hmem_m p (by rw [hrun]; exact hp)
                rcases hq with h1 | h1
                · exact hstm_no_b p h1 hpb
                · have hp2 : p ∈ stm.applied ++ nappQ := by
                    rw [← happQ]; exact hp
                  rcases List.mem_append.mp hp2 with h2 | h2
                  · exact hstm_no_b p h2 hpb
                  · have h3 := hreadQ p h2
                    rw [hpb, hrb] at h3
                    injection h3 with h4
                    rw [← h4] at h1
                    exact h1 rfl
              · have hc1 : (st'.records.countP fun r => r.md5 == md5hex c) =
                    stm.records.countP fun r => r.md5 == md5hex c := by
                  have hx := migLoop_countP_blocked env read post stm
                    (md5hex c) hmem_m
                  rw [hrun] at hx
                  exact hx
                have hc2 : (stm.records.countP fun r => r.md5 == md5hex c) =
                    sta.records.countP fun r => r.md5 == md5hex c := by
                  have hx := migLoop_countP_blocked env read mid sta
                    (md5hex c) hmem_a
                  rw [hM] at hx
                  exact hx
                rw [hc1, hc2]
                show ((stp.records ++
                    [MigrationRecord.mk (baseName a) (md5hex c)
                      stp.clock]).countP fun r => r.md5 == md5hex c) = 1
                rw [List.countP_append]
                have hz : (stp.records.countP
                    fun r => r.md5 == md5hex c) = 0 := by
                  rw [List.countP_eq_zero]
                  intro r hr
                  simp [hfreshp r hr]
                rw [hz]
                simp [List.countP_cons]
            · rw [hrb] at hr2
              injection hr2 with h4
              rw [← h4] at hany2
              exact ((md5_blocked hany2 hmem_m) rfl).elim
            · rw [hrb] at hr2
              injection hr2 with h4
              rw [← h4] at hany2
              exact ((md5_blocked hany2 hmem_m) rfl).elim
            · rw [hrb] at hr2
              injection hr2 with h4
              rw [← h4] at hany2
              exact ((md5_blocked hany2 hmem_m) rfl).elim

set_option maxRecDepth 1000000 in
theorem content_dedup_witness :
    ((("m/0.sql"), strBytes ("A")) ∈ stPre.applied) ∧
    (∀ p ∈ stPre.applied, p.1 ≠ ("m/1.sql")) ∧
    (stPre.records.countP fun r => r.md5 == md5hex (strBytes ("A"))) = 1 :=
  content_dedup envAllOk readDup [] [] [] ("m/0.sql") ("m/1.sql") st0 stPre
    (strBytes ("A")) (by decide) (by decide) (by decide) (by decide)
    (fun r hr => absurd hr (List.not_mem_nil r))
    (fun g hg => absurd hg (List.not_mem_nil g))
    (fun p hp => absurd hp (List.not_mem_nil p))

end Toolbox

